import Mathlib

/-!
Verification of the `sync_cow` crate (`src/lib.rs`).

`SyncCow<T>` is a clone-on-write container: two slots (`atomic_red`,
`atomic_green`), each a pair of an `AtomicPtr<Arc<T>>` and an `AtomicUsize`
hazard counter, an `AtomicUsize` selector `latest` (`RED = 0`, `GREEN = 1`),
and a `Mutex<()>` write lock.

The development contains two embeddings of the same source code:

* a sequential one (`SyncCow.read?`, `SyncCow.edit`, `SyncCow.new`), where
  each public operation is a pure function on a `CowState` consisting of the
  container fields and a heap of reference-counted cells; and
* an interleaved small-step one (`Step`), where a writer thread and a list of
  reader threads execute the individual atomic instructions of `edit` and
  `read` in any order.

Heap cells model the `Box<Arc<T>>` allocations: `strong` is the `Arc` strong
count, `boxAlive` records whether the `Box` allocation obtained from
`Box::into_raw` is still live (it is reclaimed by `Box::from_raw` in `edit`),
and `val` is the payload.
-/

/-- A raw pointer (`*mut Arc<T>`): an index into the heap of cells. -/
abbrev Ptr := Nat

/-- One `Box<Arc<T>>` allocation together with the `ArcInner` it points to:
`strong` is the strong reference count of the `Arc`, `boxAlive` whether the
`Box` memory is still allocated, `val` the payload value. -/
structure Cell (T : Type) where
  strong : Nat
  boxAlive : Bool
  val : T
deriving DecidableEq, Repr

/-- `Arc::get_mut(..)` : succeeds (returning the payload for mutation)
exactly when the strong count is 1 (the `Arc` is not shared; the code
creates no weak references). -/
def getMut (c : Cell T) : Option T :=
  if c.strong = 1 then some c.val else none

/-- `Arc::clone` of the arc stored at `p`: bump its strong count. -/
def bumpStrong (mem : List (Cell T)) (p : Ptr) : List (Cell T) :=
  match mem[p]? with
  | some c => mem.set p { c with strong := c.strong + 1 }
  | none => mem

/-- `Box::from_raw(p)` going out of scope: the `Box` allocation is reclaimed
and the `Arc` it owned is dropped, decrementing the strong count. -/
def freeBox (mem : List (Cell T)) (p : Ptr) : List (Cell T) :=
  match mem[p]? with
  | some c => mem.set p { c with strong := c.strong - 1, boxAlive := false }
  | none => mem

/-- Dereference an `Arc<T>` handle held by a reader: valid only while the
`ArcInner` is alive, i.e. the strong count is positive. -/
def derefArc? (mem : List (Cell T)) (p : Ptr) : Option T :=
  match mem[p]? with
  | some c => if 0 < c.strong then some c.val else none
  | none => none

/-- The pointer `p` indexes a cell whose `Box` allocation is still live. -/
def aliveAt (mem : List (Cell T)) (p : Ptr) : Prop :=
  ∃ c, mem[p]? = some c ∧ c.boxAlive = true

/-- The fields of `struct SyncCow<T>`: the write lock (`true` = held), the
`latest` selector, and for each of `atomic_red` / `atomic_green` the slot
pointer and the hazard counter. -/
structure SyncCow (T : Type) where
  writeLock : Bool
  latest : Nat
  redPtr : Ptr
  redCnt : Nat
  greenPtr : Ptr
  greenCnt : Nat
deriving DecidableEq, Repr

/-- `const RED: usize = 0`. -/
def RED : Nat := 0

/-- `const GREEN: usize = 1`. -/
def GREEN : Nat := 1

/-- The slot pointer of slot `s` (`0` = red, `1` = green). -/
def ptrOf (c : SyncCow T) (s : Nat) : Ptr :=
  if s = 0 then c.redPtr else c.greenPtr

/-- The hazard counter of slot `s`. -/
def cntOf (c : SyncCow T) (s : Nat) : Nat :=
  if s = 0 then c.redCnt else c.greenCnt

/-- Store `p` into the slot pointer of slot `s`. -/
def setPtr (c : SyncCow T) (s : Nat) (p : Ptr) : SyncCow T :=
  if s = 0 then { c with redPtr := p } else { c with greenPtr := p }

/-- Store `n` into the hazard counter of slot `s`. -/
def setCnt (c : SyncCow T) (s : Nat) (n : Nat) : SyncCow T :=
  if s = 0 then { c with redCnt := n } else { c with greenCnt := n }

/-- The `match latest` in `read`: `RED => atomic_red, GREEN => atomic_green,
_ => panic!("Latest does not exist...")` — `none` models the panic. -/
def slotOf? (l : Nat) : Option Nat :=
  match l with
  | 0 => some 0
  | 1 => some 1
  | _ => none

/-- The `match latest` in `edit`, returning the *inactive* slot (the one
whose pointer is overwritten): `RED => atomic_green, GREEN => atomic_red,
_ => panic!(..)` — `none` models the panic. -/
def otherSlot? (l : Nat) : Option Nat :=
  match l with
  | 0 => some 1
  | 1 => some 0
  | _ => none

/-- A container state: the `SyncCow` fields plus the heap of cells reachable
from it (slot cells and cells still referenced by reader handles). -/
structure CowState (T : Type) where
  cow : SyncCow T
  mem : List (Cell T)
deriving DecidableEq, Repr

/-- `SyncCow::new(obj)`: clone `obj` twice, wrap each clone in
`Box::new(Arc::new(..))`, install one into each slot, `latest = 0`, both
hazard counters `0`, the write lock unlocked. -/
def SyncCow.new (obj : T) : CowState T :=
  { cow :=
      { writeLock := false
        latest := 0
        redPtr := 0
        redCnt := 0
        greenPtr := 1
        greenCnt := 0 }
    mem := [⟨1, true, obj⟩, ⟨1, true, obj⟩] }

/-- `SyncCow::read`: load `latest`, select the slot (`none` on the panic
branch), `fetch_add(1)` the hazard counter, clone the `Arc` behind the slot
pointer, `fetch_sub(1)` the counter, and return the cloned handle. -/
def SyncCow.read? (st : CowState T) : Option (CowState T × Ptr) :=
  match slotOf? st.cow.latest with
  | none => none
  | some s =>
    let p := ptrOf st.cow s
    let cow1 := setCnt st.cow s (cntOf st.cow s + 1)
    let mem1 := bumpStrong st.mem p
    let cow2 := setCnt cow1 s (cntOf cow1 s - 1)
    some (⟨cow2, mem1⟩, p)

/-- Result of a sequential `edit` call.  `ok` is the normal return;
`mutatorPanic` models the user closure unwinding (the panic propagates to
the caller, carrying the state after unwind); `internalPanic` models the
`panic!("Latest does not exist...")` branch and the `.unwrap()` on
`Arc::get_mut`; `stuck` models an execution that cannot make progress in a
sequential run (the write lock already held, or spinning forever on a
non-zero hazard counter with no reader left to decrement it). -/
inductive EditResult (T : Type) where
  | ok (st : CowState T)
  | mutatorPanic (st : CowState T)
  | internalPanic
  | stuck
deriving DecidableEq, Repr

/-- `SyncCow::edit(edit_fn)`, sequential embedding.  The mutator
`f : T → Option T` returns `none` to model `edit_fn` panicking.  Steps,
mirroring the source: acquire the write lock; load `latest`; `match latest`
selecting the inactive slot (panic branch → `internalPanic`); load the
active slot pointer and dereference it; clone the value into a fresh
`Box::new(Arc::new(..))` with strong count 1; `Arc::get_mut(..).unwrap()`
(failure → `internalPanic`); run `edit_fn` (unwind → `mutatorPanic`, the
local `Box` is dropped before any shared state was touched, so the state is
unchanged); `Box::into_raw` the box (the cell enters the shared heap);
`swap` it into the inactive slot; spin until that slot's hazard counter is
zero; store `(latest + 1) % 2`; `Box::from_raw` the swapped-out pointer. -/
def SyncCow.edit (st : CowState T) (f : T → Option T) : EditResult T :=
  if st.cow.writeLock then .stuck
  else
    let l := st.cow.latest
    match otherSlot? l with
    | none => .internalPanic
    | some os =>
      match st.mem[ptrOf st.cow l]? with
      | none => .internalPanic
      | some objCell =>
        let cloned : Cell T := { strong := 1, boxAlive := true, val := objCell.val }
        match getMut cloned with
        | none => .internalPanic
        | some v =>
          match f v with
          | none => .mutatorPanic st
          | some v2 =>
            let newp := st.mem.length
            let mem1 := st.mem ++ [{ cloned with val := v2 }]
            let oldp := ptrOf st.cow os
            let cow1 := setPtr st.cow os newp
            if cntOf st.cow os ≠ 0 then .stuck
            else
              let cow2 := { cow1 with latest := (l + 1) % 2 }
              .ok ⟨cow2, freeBox mem1 oldp⟩

/-- States reachable from some `SyncCow::new` by sequences of `read` and
`edit` (both the normal and the mutator-unwind return of `edit`). -/
inductive Reach : CowState T → Prop where
  | new (v : T) : Reach (SyncCow.new v)
  | read (st st' : CowState T) (h : Ptr) :
      Reach st → SyncCow.read? st = some (st', h) → Reach st'
  | edit (st st' : CowState T) (f : T → Option T) :
      Reach st → SyncCow.edit st f = .ok st' → Reach st'
  | editPanic (st st' : CowState T) (f : T → Option T) :
      Reach st → SyncCow.edit st f = .mutatorPanic st' → Reach st'

/-- The cell at `q` is present, its `Box` live and its strong count positive. -/
def goodCell (mem : List (Cell T)) (q : Ptr) : Prop :=
  ∃ c, mem[q]? = some c ∧ c.boxAlive = true ∧ 0 < c.strong

/-! ### The sequential invariant -/

/-- Invariant of sequential executions: the lock is free and the counters
zero between operations, `latest` is `RED` or `GREEN`, the two slot pointers
are distinct in-bounds pointers, and both slot cells are live with a
positive strong count (the slot's own `Arc` reference). -/
structure SeqInv (st : CowState T) : Prop where
  lock_free : st.cow.writeLock = false
  latest_lt : st.cow.latest < 2
  redCnt0 : st.cow.redCnt = 0
  greenCnt0 : st.cow.greenCnt = 0
  red_lt : st.cow.redPtr < st.mem.length
  green_lt : st.cow.greenPtr < st.mem.length
  red_ne_green : st.cow.redPtr ≠ st.cow.greenPtr
  red_cell : goodCell st.mem st.cow.redPtr
  green_cell : goodCell st.mem st.cow.greenPtr

/-- The state returned by `read` on `new(5)`, used by the C7 witness. -/
def c7St1 : CowState Int := ⟨⟨false, 0, 0, 0, 1, 0⟩, [⟨2, true, 5⟩, ⟨1, true, 5⟩]⟩

/-- The state produced by the C6 witness edit on `new(5)`. -/
def c6St2 : CowState Int :=
  ⟨⟨false, 1, 0, 0, 2, 0⟩,
   [⟨1, true, 5⟩, ⟨0, false, 5⟩, ⟨1, true, 9⟩]⟩

/-- The C2 mutator: `|x| *x += 1`. -/
def incMut : Int → Option Int := fun v => some (v + 1)

/-- The state after `n` sequential `edit(incMut)` calls starting from
`new(v0)`.  (Sequential executions never take the non-`ok` fallback arm, as
`afterEdits_active` shows.) -/
def afterEdits (v0 : Int) : Nat → CowState Int
  | 0 => SyncCow.new v0
  | n + 1 =>
    match SyncCow.edit (afterEdits v0 n) incMut with
    | .ok st => st
    | _ => afterEdits v0 n

/-- The value obtained by `read()` followed by dereferencing the returned
`Arc` handle. -/
def readValue? (st : CowState T) : Option T :=
  match SyncCow.read? st with
  | some (st2, hp) => derefArc? st2.mem hp
  | none => none

/-! ### Interleaved small-step model

One writer thread (the write lock serializes writers, so a single writer
thread is fully general) and a fixed population of reader threads execute
the individual atomic instructions of `edit` and `read` in any
interleaving.  Each program counter records the values the thread has
loaded so far. -/

/-- Writer program counter inside `edit`:
`idle` (not in `edit`); `gotLatest l` (lock acquired, `latest` loaded);
`loadedPtr l p` (the `match` succeeded and the active slot pointer was
loaded); `cloned l newp` (value cloned, mutator run, `Box::into_raw`
performed — the fresh cell `newp` exists); `swapped l oldp` (the new
pointer swapped into the inactive slot, `oldp` is what it replaced);
`drained l oldp` (the spin loop observed the inactive slot's counter equal
to zero); `flipped l oldp` (`latest` stored). -/
inductive WriterPC where
  | idle
  | gotLatest (l : Nat)
  | loadedPtr (l : Nat) (p : Ptr)
  | cloned (l : Nat) (newp : Ptr)
  | swapped (l : Nat) (oldp : Ptr)
  | drained (l : Nat) (oldp : Ptr)
  | flipped (l : Nat) (oldp : Ptr)
deriving DecidableEq, Repr

/-- Reader program counter inside `read`: `idle`; `gotLatest l` (`latest`
loaded); `incr s` (hazard counter of slot `s` incremented); `gotPtr s p`
(slot pointer loaded); `cloned s p` (the `Arc` behind `p` cloned, counter
not yet decremented). -/
inductive ReaderPC where
  | idle
  | gotLatest (l : Nat)
  | incr (s : Nat)
  | gotPtr (s : Nat) (p : Ptr)
  | cloned (s : Nat) (p : Ptr)
deriving DecidableEq, Repr

/-- Global state of the interleaved system. -/
structure GState (T : Type) where
  cow : SyncCow T
  mem : List (Cell T)
  writer : WriterPC
  readers : List ReaderPC
deriving DecidableEq, Repr

/-- Event labels for the individual atomic instructions. -/
inductive Ev where
  | wLockLoad
  | wLoadPtr
  | wClone
  | wSwap
  | wObserveZero
  | wFlip
  | wFree
  | rLoadLatest (i : Nat)
  | rIncr (i : Nat)
  | rLoadPtr (i : Nat)
  | rClone (i : Nat)
  | rDecr (i : Nat)
deriving DecidableEq, Repr

/-- One atomic instruction of the source, mirroring `edit` (writer) and
`read` (reader `i`).  Guards are only what the code itself checks (the
`match latest` arms and the `while old_cnt.load(Relaxed) != 0` exit
condition); memory accesses are *not* guarded by liveness — that memory
safety holds is proved, not assumed. -/
inductive Step : GState T → Ev → GState T → Prop where
  | wLockLoad {g : GState T} (hw : g.writer = .idle) :
      Step g .wLockLoad
        { g with cow := { g.cow with writeLock := true },
                 writer := .gotLatest g.cow.latest }
  | wLoadPtr {g : GState T} {l os : Nat} (hw : g.writer = .gotLatest l)
      (hos : otherSlot? l = some os) :
      Step g .wLoadPtr { g with writer := .loadedPtr l (ptrOf g.cow l) }
  | wClone {g : GState T} {l : Nat} {p : Ptr} (v2 : T)
      (hw : g.writer = .loadedPtr l p) :
      Step g .wClone
        { g with mem := g.mem ++ [⟨1, true, v2⟩],
                 writer := .cloned l g.mem.length }
  | wSwap {g : GState T} {l os : Nat} {newp : Ptr} (hw : g.writer = .cloned l newp)
      (hos : otherSlot? l = some os) :
      Step g .wSwap
        { g with cow := setPtr g.cow os newp,
                 writer := .swapped l (ptrOf g.cow os) }
  | wObserveZero {g : GState T} {l os : Nat} {oldp : Ptr}
      (hw : g.writer = .swapped l oldp) (hos : otherSlot? l = some os)
      (hcnt : cntOf g.cow os = 0) :
      Step g .wObserveZero { g with writer := .drained l oldp }
  | wFlip {g : GState T} {l : Nat} {oldp : Ptr} (hw : g.writer = .drained l oldp) :
      Step g .wFlip
        { g with cow := { g.cow with latest := (l + 1) % 2 },
                 writer := .flipped l oldp }
  | wFree {g : GState T} {l : Nat} {oldp : Ptr} (hw : g.writer = .flipped l oldp) :
      Step g .wFree
        { g with cow := { g.cow with writeLock := false },
                 mem := freeBox g.mem oldp,
                 writer := .idle }
  | rLoadLatest {g : GState T} {i : Nat} (hr : g.readers[i]? = some .idle) :
      Step g (.rLoadLatest i)
        { g with readers := g.readers.set i (.gotLatest g.cow.latest) }
  | rIncr {g : GState T} {i l s : Nat} (hr : g.readers[i]? = some (.gotLatest l))
      (hs : slotOf? l = some s) :
      Step g (.rIncr i)
        { g with cow := setCnt g.cow s (cntOf g.cow s + 1),
                 readers := g.readers.set i (.incr s) }
  | rLoadPtr {g : GState T} {i s : Nat} (hr : g.readers[i]? = some (.incr s)) :
      Step g (.rLoadPtr i)
        { g with readers := g.readers.set i (.gotPtr s (ptrOf g.cow s)) }
  | rClone {g : GState T} {i s : Nat} {p : Ptr}
      (hr : g.readers[i]? = some (.gotPtr s p)) :
      Step g (.rClone i)
        { g with mem := bumpStrong g.mem p,
                 readers := g.readers.set i (.cloned s p) }
  | rDecr {g : GState T} {i s : Nat} {p : Ptr}
      (hr : g.readers[i]? = some (.cloned s p)) :
      Step g (.rDecr i)
        { g with cow := setCnt g.cow s (cntOf g.cow s - 1),
                 readers := g.readers.set i .idle }

/-- Initial state: a fresh container and `n` idle readers. -/
def init (v : T) (n : Nat) : GState T :=
  { cow := (SyncCow.new v).cow
    mem := (SyncCow.new v).mem
    writer := .idle
    readers := List.replicate n .idle }

/-- Reachability in the interleaved system. -/
inductive GReach (g0 : GState T) : GState T → Prop where
  | refl : GReach g0 g0
  | step {g g' : GState T} {e : Ev} : GReach g0 g → Step g e g' → GReach g0 g'

/-- Does this reader currently hold (have announced itself on) slot `s`?
These are exactly the program points between `fetch_add` and `fetch_sub`. -/
def holdsSlot (s : Nat) : ReaderPC → Bool
  | .incr s' => s' = s
  | .gotPtr s' _ => s' = s
  | .cloned s' _ => s' = s
  | _ => false

/-- Per-reader invariant. A reader that has loaded a slot pointer `p`
either read the slot's current pointer, or read the pointer that the
in-progress swap just replaced (and then the writer is still in `swapped`,
before the drain). In both cases `p` is live. -/
def ReaderInv (g : GState T) : ReaderPC → Prop
  | .idle => True
  | .gotLatest l => l < 2
  | .incr s => s < 2
  | .gotPtr s p => s < 2 ∧ p < g.mem.length ∧ aliveAt g.mem p ∧
      (p = ptrOf g.cow s ∨ ∃ l, g.writer = .swapped l p ∧ otherSlot? l = some s)
  | .cloned s _ => s < 2

/-- Writer invariant, by program counter: the loaded `latest` is current
(only the writer stores to `latest`), the fresh cell and the swapped-out
pointer are live, in bounds, and in neither slot. -/
def WriterInv (g : GState T) : Prop :=
  match g.writer with
  | .idle => g.cow.writeLock = false
  | .gotLatest l => l = g.cow.latest ∧ g.cow.writeLock = true
  | .loadedPtr l _ => l = g.cow.latest ∧ g.cow.writeLock = true
  | .cloned l newp => l = g.cow.latest ∧ newp < g.mem.length ∧ aliveAt g.mem newp ∧
      newp ≠ g.cow.redPtr ∧ newp ≠ g.cow.greenPtr ∧ g.cow.writeLock = true
  | .swapped l oldp => l = g.cow.latest ∧ oldp < g.mem.length ∧ aliveAt g.mem oldp ∧
      oldp ≠ g.cow.redPtr ∧ oldp ≠ g.cow.greenPtr ∧ g.cow.writeLock = true
  | .drained l oldp => l = g.cow.latest ∧ oldp < g.mem.length ∧ aliveAt g.mem oldp ∧
      oldp ≠ g.cow.redPtr ∧ oldp ≠ g.cow.greenPtr ∧ g.cow.writeLock = true
  | .flipped l oldp => g.cow.latest = (l + 1) % 2 ∧ l < 2 ∧ oldp < g.mem.length ∧
      aliveAt g.mem oldp ∧ oldp ≠ g.cow.redPtr ∧ oldp ≠ g.cow.greenPtr ∧
      g.cow.writeLock = true

/-- Global invariant of the interleaved system. -/
structure GInv (g : GState T) : Prop where
  latest_lt : g.cow.latest < 2
  red_lt : g.cow.redPtr < g.mem.length
  green_lt : g.cow.greenPtr < g.mem.length
  red_ne_green : g.cow.redPtr ≠ g.cow.greenPtr
  red_alive : aliveAt g.mem g.cow.redPtr
  green_alive : aliveAt g.mem g.cow.greenPtr
  writer_ok : WriterInv g
  readers_ok : ∀ (i : Nat) (pc : ReaderPC), g.readers[i]? = some pc → ReaderInv g pc
  cnt_red : g.cow.redCnt = g.readers.countP (holdsSlot 0)
  cnt_green : g.cow.greenCnt = g.readers.countP (holdsSlot 1)

/-! ### A concrete interleaving

Writer: one full `edit` on `new(5)` writing `9`.  One reader starts `read`
after the flip and increments the green hazard counter just before the
writer frees the old pointer — so the free happens while the drained
slot's counter is non-zero again (the reader, however, holds the *new*
pointer). -/

def traceG0 : GState Int := init 5 1

def traceG1 : GState Int :=
  { cow := ⟨true, 0, 0, 0, 1, 0⟩, mem := [⟨1, true, 5⟩, ⟨1, true, 5⟩],
    writer := .gotLatest 0, readers := [.idle] }

def traceG2 : GState Int :=
  { cow := ⟨true, 0, 0, 0, 1, 0⟩, mem := [⟨1, true, 5⟩, ⟨1, true, 5⟩],
    writer := .loadedPtr 0 0, readers := [.idle] }

def traceG3 : GState Int :=
  { cow := ⟨true, 0, 0, 0, 1, 0⟩, mem := [⟨1, true, 5⟩, ⟨1, true, 5⟩, ⟨1, true, 9⟩],
    writer := .cloned 0 2, readers := [.idle] }

def traceG4 : GState Int :=
  { cow := ⟨true, 0, 0, 0, 2, 0⟩, mem := [⟨1, true, 5⟩, ⟨1, true, 5⟩, ⟨1, true, 9⟩],
    writer := .swapped 0 1, readers := [.idle] }

def traceG5 : GState Int :=
  { cow := ⟨true, 0, 0, 0, 2, 0⟩, mem := [⟨1, true, 5⟩, ⟨1, true, 5⟩, ⟨1, true, 9⟩],
    writer := .drained 0 1, readers := [.idle] }

def traceG6 : GState Int :=
  { cow := ⟨true, 1, 0, 0, 2, 0⟩, mem := [⟨1, true, 5⟩, ⟨1, true, 5⟩, ⟨1, true, 9⟩],
    writer := .flipped 0 1, readers := [.idle] }

def traceG7 : GState Int :=
  { cow := ⟨true, 1, 0, 0, 2, 0⟩, mem := [⟨1, true, 5⟩, ⟨1, true, 5⟩, ⟨1, true, 9⟩],
    writer := .flipped 0 1, readers := [.gotLatest 1] }

def traceG8 : GState Int :=
  { cow := ⟨true, 1, 0, 0, 2, 1⟩, mem := [⟨1, true, 5⟩, ⟨1, true, 5⟩, ⟨1, true, 9⟩],
    writer := .flipped 0 1, readers := [.incr 1] }

def traceG9 : GState Int :=
  { cow := ⟨false, 1, 0, 0, 2, 1⟩, mem := [⟨1, true, 5⟩, ⟨0, false, 5⟩, ⟨1, true, 9⟩],
    writer := .idle, readers := [.incr 1] }

/-! ### Heap helper lemmas -/

theorem bumpStrong_length (mem : List (Cell T)) (p : Ptr) :
    (bumpStrong mem p).length = mem.length := by
  unfold bumpStrong
  cases h : mem[p]? <;> simp

theorem bumpStrong_getElem?_ne (mem : List (Cell T)) {p q : Ptr} (hne : p ≠ q) :
    (bumpStrong mem p)[q]? = mem[q]? := by
  unfold bumpStrong
  cases h : mem[p]?
  · rfl
  · exact List.getElem?_set_ne hne

theorem bumpStrong_getElem?_self {mem : List (Cell T)} {p : Ptr} {c : Cell T}
    (h : mem[p]? = some c) :
    (bumpStrong mem p)[p]? = some { c with strong := c.strong + 1 } := by
  have hp : p < mem.length := (List.getElem?_eq_some.mp h).1
  unfold bumpStrong
  rw [h]
  exact List.getElem?_set_eq_of_lt _ hp

theorem freeBox_length (mem : List (Cell T)) (p : Ptr) :
    (freeBox mem p).length = mem.length := by
  unfold freeBox
  cases h : mem[p]? <;> simp

theorem freeBox_getElem?_ne (mem : List (Cell T)) {p q : Ptr} (hne : p ≠ q) :
    (freeBox mem p)[q]? = mem[q]? := by
  unfold freeBox
  cases h : mem[p]?
  · rfl
  · exact List.getElem?_set_ne hne

theorem freeBox_getElem?_self {mem : List (Cell T)} {p : Ptr} {c : Cell T}
    (h : mem[p]? = some c) :
    (freeBox mem p)[p]? = some { c with strong := c.strong - 1, boxAlive := false } := by
  have hp : p < mem.length := (List.getElem?_eq_some.mp h).1
  unfold freeBox
  rw [h]
  exact List.getElem?_set_eq_of_lt _ hp

theorem slotOf?_eq {l s : Nat} (h : slotOf? l = some s) : l = s ∧ (s = 0 ∨ s = 1) := by
  unfold slotOf? at h
  match l, h with
  | 0, h => exact ⟨(Option.some_inj.mp h).symm ▸ rfl, Or.inl (Option.some_inj.mp h).symm⟩
  | 1, h => exact ⟨(Option.some_inj.mp h), Or.inr (Option.some_inj.mp h).symm⟩

theorem otherSlot?_eq {l s : Nat} (h : otherSlot? l = some s) :
    (l = 0 ∧ s = 1) ∨ (l = 1 ∧ s = 0) := by
  unfold otherSlot? at h
  match l, h with
  | 0, h => exact Or.inl ⟨rfl, (Option.some_inj.mp h).symm⟩
  | 1, h => exact Or.inr ⟨rfl, (Option.some_inj.mp h).symm⟩

theorem goodCell_bumpStrong {mem : List (Cell T)} {q : Ptr} (p : Ptr)
    (h : goodCell mem q) : goodCell (bumpStrong mem p) q := by
  obtain ⟨c, hc, ha, hs⟩ := h
  by_cases hpq : p = q
  · subst hpq
    exact ⟨_, bumpStrong_getElem?_self hc, ha, Nat.succ_pos _⟩
  · exact ⟨c, (bumpStrong_getElem?_ne mem hpq).trans hc, ha, hs⟩

theorem goodCell_append {mem : List (Cell T)} {q : Ptr} (l : List (Cell T))
    (h : goodCell mem q) : goodCell (mem ++ l) q := by
  obtain ⟨c, hc, ha, hs⟩ := h
  exact ⟨c, (List.getElem?_append_left (List.getElem?_eq_some.mp hc).1).trans hc, ha, hs⟩

theorem goodCell_freeBox_ne {mem : List (Cell T)} {q : Ptr} {p : Ptr} (hpq : p ≠ q)
    (h : goodCell mem q) : goodCell (freeBox mem p) q := by
  obtain ⟨c, hc, ha, hs⟩ := h
  exact ⟨c, (freeBox_getElem?_ne mem hpq).trans hc, ha, hs⟩

theorem cntOf_setCnt (c : SyncCow T) (s n : Nat) : cntOf (setCnt c s n) s = n := by
  unfold cntOf setCnt
  split <;> simp

theorem setCnt_setCnt (c : SyncCow T) (s m n : Nat) :
    setCnt (setCnt c s m) s n = setCnt c s n := by
  unfold setCnt
  split <;> rfl

theorem setCnt_cntOf_self (c : SyncCow T) (s : Nat) : setCnt c s (cntOf c s) = c := by
  unfold setCnt cntOf
  split <;> rfl

/-- `slotOf?` is the identity below 2. -/
theorem slotOf?_of_lt {l : Nat} (h : l < 2) : slotOf? l = some l := by
  match l, h with
  | 0, _ => rfl
  | 1, _ => rfl

/-- Closed form of a successful `read`: the container fields are restored
(the counter is incremented and then decremented back) and the heap change
is the refcount bump of the active slot's cell. -/
theorem read?_eq (st : CowState T) {s : Nat} (hs : slotOf? st.cow.latest = some s) :
    SyncCow.read? st =
      some (⟨st.cow, bumpStrong st.mem (ptrOf st.cow s)⟩, ptrOf st.cow s) := by
  unfold SyncCow.read?
  rw [hs]
  simp only [cntOf_setCnt, setCnt_setCnt, Nat.add_sub_cancel, setCnt_cntOf_self]

/-- Closed form of `edit` once the lock is free, the `match latest` selects
the inactive slot `os`, the active slot pointer dereferences to `c` and the
inactive slot's hazard counter is zero: the mutator either unwinds (state
unchanged) or its result is installed in the inactive slot, `latest` is
flipped, and the swapped-out box freed. -/
theorem edit_eq_of_steps (st : CowState T) {os : Nat} {c : Cell T} (g : T → Option T)
    (hlock : st.cow.writeLock = false)
    (hos : otherSlot? st.cow.latest = some os)
    (hc : st.mem[ptrOf st.cow st.cow.latest]? = some c)
    (hcnt : cntOf st.cow os = 0) :
    SyncCow.edit st g =
      match g c.val with
      | none => .mutatorPanic st
      | some v2 =>
        .ok ⟨{ setPtr st.cow os st.mem.length with latest := (st.cow.latest + 1) % 2 },
             freeBox (st.mem ++ [⟨1, true, v2⟩]) (ptrOf st.cow os)⟩ := by
  unfold SyncCow.edit
  simp only [hlock, Bool.false_eq_true, if_false, hos, hc, getMut, if_pos rfl]
  cases hg : g c.val with
  | none => simp [hg]
  | some v2 => simp [hg, hcnt]

/-- A `mutatorPanic` result of `edit` always carries the unchanged input
state: the unwind happens before any shared state is touched. -/
theorem edit_mutatorPanic_eq {st st' : CowState T} {g : T → Option T}
    (h : SyncCow.edit st g = .mutatorPanic st') : st' = st := by
  unfold SyncCow.edit at h
  simp only [] at h
  repeat' split at h
  all_goals cases h
  all_goals rfl

theorem seqInv_new (v : T) : SeqInv (SyncCow.new v) :=
  ⟨rfl, Nat.zero_lt_two, rfl, rfl, Nat.zero_lt_two, Nat.one_lt_two, Nat.zero_ne_one,
    ⟨⟨1, true, v⟩, rfl, rfl, Nat.one_pos⟩, ⟨⟨1, true, v⟩, rfl, rfl, Nat.one_pos⟩⟩

theorem seqInv_read {st st' : CowState T} {h : Ptr} (inv : SeqInv st)
    (hr : SyncCow.read? st = some (st', h)) : SeqInv st' := by
  rw [read?_eq st (slotOf?_of_lt inv.latest_lt)] at hr
  rw [Option.some.injEq, Prod.mk.injEq] at hr
  obtain ⟨h1, _⟩ := hr
  subst h1
  refine ⟨inv.lock_free, inv.latest_lt, inv.redCnt0, inv.greenCnt0, ?_, ?_, inv.red_ne_green,
    goodCell_bumpStrong _ inv.red_cell, goodCell_bumpStrong _ inv.green_cell⟩
  · rw [bumpStrong_length]; exact inv.red_lt
  · rw [bumpStrong_length]; exact inv.green_lt

/-- Normal return of `edit`: the mutated clone is appended as a fresh cell,
installed in the inactive slot `os`, `latest` is flipped, and the box the
inactive slot previously held is freed. -/
theorem edit_ok_eq (st : CowState T) {os : Nat} {c : Cell T} {v2 : T} (g : T → Option T)
    (hlock : st.cow.writeLock = false)
    (hos : otherSlot? st.cow.latest = some os)
    (hc : st.mem[ptrOf st.cow st.cow.latest]? = some c)
    (hcnt : cntOf st.cow os = 0)
    (hg : g c.val = some v2) :
    SyncCow.edit st g =
      .ok ⟨{ setPtr st.cow os st.mem.length with latest := (st.cow.latest + 1) % 2 },
           freeBox (st.mem ++ [⟨1, true, v2⟩]) (ptrOf st.cow os)⟩ := by
  rw [edit_eq_of_steps st g hlock hos hc hcnt, hg]

/-- Unwinding return of `edit`: if the mutator fails, `edit` propagates the
failure and the whole state (container fields and heap) is unchanged. -/
theorem edit_panic_eq (st : CowState T) {os : Nat} {c : Cell T} (g : T → Option T)
    (hlock : st.cow.writeLock = false)
    (hos : otherSlot? st.cow.latest = some os)
    (hc : st.mem[ptrOf st.cow st.cow.latest]? = some c)
    (hcnt : cntOf st.cow os = 0)
    (hg : g c.val = none) :
    SyncCow.edit st g = .mutatorPanic st := by
  rw [edit_eq_of_steps st g hlock hos hc hcnt, hg]

theorem seqInv_edit {st st' : CowState T} {g : T → Option T} (inv : SeqInv st)
    (h : SyncCow.edit st g = .ok st') : SeqInv st' := by
  obtain ⟨⟨wl, lt, rp, rc, gp, gc⟩, mem⟩ := st
  have hwl : wl = false := inv.lock_free
  have hrc : rc = 0 := inv.redCnt0
  have hgc : gc = 0 := inv.greenCnt0
  have hrl : rp < mem.length := inv.red_lt
  have hgl : gp < mem.length := inv.green_lt
  have hrg : rp ≠ gp := inv.red_ne_green
  have hl2 : lt < 2 := inv.latest_lt
  subst hwl hrc hgc
  rcases show lt = 0 ∨ lt = 1 by omega with hl | hl
  all_goals subst hl
  · -- latest = RED: the new snapshot goes to the green slot
    obtain ⟨c, hc0, hca, hcs⟩ := inv.red_cell
    cases hg : g c.val with
    | none =>
      rw [edit_panic_eq (⟨⟨false, 0, rp, 0, gp, 0⟩, mem⟩ : CowState T) g rfl rfl hc0 rfl hg] at h
      cases h
    | some v2 =>
      rw [edit_ok_eq (⟨⟨false, 0, rp, 0, gp, 0⟩, mem⟩ : CowState T) g rfl rfl hc0 rfl hg] at h
      injection h with h
      subst h
      refine ⟨rfl, by norm_num, rfl, rfl, ?_, ?_, ?_, ?_, ?_⟩
      · show rp < (freeBox (mem ++ [⟨1, true, v2⟩]) gp).length
        rw [freeBox_length]
        simp only [List.length_append, List.length_singleton]
        exact Nat.lt_succ_of_lt hrl
      · show mem.length < (freeBox (mem ++ [⟨1, true, v2⟩]) gp).length
        rw [freeBox_length]
        simp only [List.length_append, List.length_singleton]
        exact Nat.lt_succ_self _
      · show rp ≠ mem.length
        exact Nat.ne_of_lt hrl
      · show goodCell (freeBox (mem ++ [⟨1, true, v2⟩]) gp) rp
        exact goodCell_freeBox_ne (Ne.symm hrg) (goodCell_append _ inv.red_cell)
      · show goodCell (freeBox (mem ++ [⟨1, true, v2⟩]) gp) mem.length
        refine ⟨⟨1, true, v2⟩, ?_, rfl, Nat.one_pos⟩
        rw [freeBox_getElem?_ne _ (Nat.ne_of_lt hgl)]
        simp
  · -- latest = GREEN: the new snapshot goes to the red slot
    obtain ⟨c, hc0, hca, hcs⟩ := inv.green_cell
    cases hg : g c.val with
    | none =>
      rw [edit_panic_eq (⟨⟨false, 1, rp, 0, gp, 0⟩, mem⟩ : CowState T) g rfl rfl hc0 rfl hg] at h
      cases h
    | some v2 =>
      rw [edit_ok_eq (⟨⟨false, 1, rp, 0, gp, 0⟩, mem⟩ : CowState T) g rfl rfl hc0 rfl hg] at h
      injection h with h
      subst h
      refine ⟨rfl, by norm_num, rfl, rfl, ?_, ?_, ?_, ?_, ?_⟩
      · show mem.length < (freeBox (mem ++ [⟨1, true, v2⟩]) rp).length
        rw [freeBox_length]
        simp only [List.length_append, List.length_singleton]
        exact Nat.lt_succ_self _
      · show gp < (freeBox (mem ++ [⟨1, true, v2⟩]) rp).length
        rw [freeBox_length]
        simp only [List.length_append, List.length_singleton]
        exact Nat.lt_succ_of_lt hgl
      · show mem.length ≠ gp
        exact Ne.symm (Nat.ne_of_lt hgl)
      · show goodCell (freeBox (mem ++ [⟨1, true, v2⟩]) rp) mem.length
        refine ⟨⟨1, true, v2⟩, ?_, rfl, Nat.one_pos⟩
        rw [freeBox_getElem?_ne _ (Nat.ne_of_lt hrl)]
        simp
      · show goodCell (freeBox (mem ++ [⟨1, true, v2⟩]) rp) gp
        exact goodCell_freeBox_ne hrg (goodCell_append _ inv.green_cell)

/-- Every sequentially reachable state satisfies the invariant. -/
theorem seqInv_reach {st : CowState T} (h : Reach st) : SeqInv st := by
  induction h with
  | new v => exact seqInv_new v
  | read st st' hp _ hr ih => exact seqInv_read ih hr
  | edit st st' f _ hr ih => exact seqInv_edit ih hr
  | editPanic st st' f _ hr ih => exact (edit_mutatorPanic_eq hr) ▸ ih

theorem ptrOf_setPtr_self (c : SyncCow T) {s : Nat} (p : Ptr) (hs : s = 0 ∨ s = 1) :
    ptrOf (setPtr c s p) s = p := by
  rcases hs with hs | hs <;> subst hs <;> rfl

theorem ptrOf_setPtr_other (c : SyncCow T) {s s' : Nat} (p : Ptr)
    (hs : (s = 0 ∧ s' = 1) ∨ (s = 1 ∧ s' = 0)) :
    ptrOf (setPtr c s p) s' = ptrOf c s' := by
  rcases hs with ⟨h1, h2⟩ | ⟨h1, h2⟩ <;> subst h1 <;> subst h2 <;> rfl

theorem setPtr_writeLock (c : SyncCow T) (s : Nat) (p : Ptr) :
    (setPtr c s p).writeLock = c.writeLock := by
  unfold setPtr; split <;> rfl

/-- The pieces of a sequential state that `edit` relies on, packaged from the
invariant: the inactive slot exists, its counter is zero, the two slot
pointers are distinct and in bounds, and both slot cells are good. -/
theorem seqInv_components {st : CowState T} (inv : SeqInv st) :
    ∃ os, otherSlot? st.cow.latest = some os ∧ (os = 0 ∨ os = 1) ∧
      os ≠ st.cow.latest ∧
      cntOf st.cow os = 0 ∧
      ptrOf st.cow os ≠ ptrOf st.cow st.cow.latest ∧
      ptrOf st.cow os < st.mem.length ∧
      ptrOf st.cow st.cow.latest < st.mem.length ∧
      goodCell st.mem (ptrOf st.cow st.cow.latest) ∧
      goodCell st.mem (ptrOf st.cow os) := by
  rcases show st.cow.latest = 0 ∨ st.cow.latest = 1 by
      have := inv.latest_lt; omega with hl | hl
  · refine ⟨1, by rw [hl]; rfl, Or.inr rfl, by omega, ?_, ?_, ?_, ?_, ?_, ?_⟩ <;>
      (try rw [hl]) <;>
      first
        | exact inv.greenCnt0
        | exact Ne.symm inv.red_ne_green
        | exact inv.green_lt
        | exact inv.red_lt
        | exact inv.red_cell
        | exact inv.green_cell
  · refine ⟨0, by rw [hl]; rfl, Or.inl rfl, by omega, ?_, ?_, ?_, ?_, ?_, ?_⟩ <;>
      (try rw [hl]) <;>
      first
        | exact inv.redCnt0
        | exact inv.red_ne_green
        | exact inv.red_lt
        | exact inv.green_lt
        | exact inv.green_cell
        | exact inv.red_cell

/-- Successful `edit` in one packaged statement: from any invariant state,
if the mutator succeeds on the active value, `edit` returns the state with
the fresh cell appended and installed in the inactive slot, `latest`
flipped, and the inactive slot's old box freed. -/
theorem edit_ok_full {st : CowState T} (inv : SeqInv st) {g : T → Option T}
    {c : Cell T} {v2 : T}
    (hc : st.mem[ptrOf st.cow st.cow.latest]? = some c)
    (hg : g c.val = some v2) :
    ∃ os, otherSlot? st.cow.latest = some os ∧ (os = 0 ∨ os = 1) ∧
      SyncCow.edit st g =
        .ok ⟨{ setPtr st.cow os st.mem.length with latest := (st.cow.latest + 1) % 2 },
             freeBox (st.mem ++ [⟨1, true, v2⟩]) (ptrOf st.cow os)⟩ := by
  obtain ⟨os, hos, hos01, _, hcnt, _⟩ := seqInv_components inv
  exact ⟨os, hos, hos01, edit_ok_eq st g inv.lock_free hos hc hcnt hg⟩

/-! ### Claim theorems (sequential model) -/

/-- C8: `new(initial)` installs two independent snapshot cells (distinct
pointers, each a separate clone of the initial value with its own strong
count 1), sets the active indicator to `RED = 0`, both hazard counters to 0
and leaves the write lock unlocked.  `SyncCow.new` is a total function:
there is no error condition. -/
theorem c8_new_initial_state (v : T) :
    (SyncCow.new v).cow.latest = RED ∧
    (SyncCow.new v).cow.writeLock = false ∧
    (SyncCow.new v).cow.redCnt = 0 ∧
    (SyncCow.new v).cow.greenCnt = 0 ∧
    (SyncCow.new v).cow.redPtr ≠ (SyncCow.new v).cow.greenPtr ∧
    (SyncCow.new v).mem[(SyncCow.new v).cow.redPtr]? = some ⟨1, true, v⟩ ∧
    (SyncCow.new v).mem[(SyncCow.new v).cow.greenPtr]? = some ⟨1, true, v⟩ :=
  ⟨rfl, rfl, rfl, rfl, Nat.zero_ne_one, rfl, rfl⟩

/-- C9: in every sequentially reachable state the active indicator is `RED`
or `GREEN`, so the `panic!("Latest does not exist. ...")` branches — the
wildcard arms modelled by the `none` results of `slotOf?` (in `read`) and
`otherSlot?` (in `edit`) — are unreachable. -/
theorem c9_latest_panic_unreachable {st : CowState T} (hre : Reach st) :
    (st.cow.latest = RED ∨ st.cow.latest = GREEN) ∧
    (slotOf? st.cow.latest).isSome ∧
    (otherSlot? st.cow.latest).isSome := by
  have inv := seqInv_reach hre
  have h2 := inv.latest_lt
  have hl : st.cow.latest = RED ∨ st.cow.latest = GREEN := by
    unfold RED GREEN
    omega
  refine ⟨hl, ?_, ?_⟩ <;> rcases hl with hl | hl <;> rw [hl] <;> rfl

/-- C9 witness at a concrete reachable state. -/
theorem c9_latest_panic_unreachable_witness :
    Reach (SyncCow.new (5 : Int)) ∧
    (((SyncCow.new (5 : Int)).cow.latest = RED ∨
        (SyncCow.new (5 : Int)).cow.latest = GREEN) ∧
      (slotOf? (SyncCow.new (5 : Int)).cow.latest).isSome ∧
      (otherSlot? (SyncCow.new (5 : Int)).cow.latest).isSome) :=
  ⟨Reach.new 5, c9_latest_panic_unreachable (Reach.new 5)⟩

/-- C10: in every reachable state, `edit` never hits `internalPanic`: in
particular the `Arc::get_mut(cloned.as_mut()).unwrap()` cannot panic, since
the `Arc` created by `Box::new(Arc::new(..))` has strong count exactly 1
and is unshared, so `getMut` on such a fresh cell always returns `some`. -/
theorem c10_arc_get_mut_never_panics {st : CowState T} (g : T → Option T)
    (hre : Reach st) :
    SyncCow.edit st g ≠ .internalPanic ∧
    (∀ v : T, getMut ⟨1, true, v⟩ = some v) := by
  have inv := seqInv_reach hre
  constructor
  · obtain ⟨os, hos, _, _, hcnt, _, _, _, ⟨c, hc, _, _⟩, _⟩ := seqInv_components inv
    cases hg : g c.val with
    | none => rw [edit_panic_eq st g inv.lock_free hos hc hcnt hg]; simp
    | some v2 => rw [edit_ok_eq st g inv.lock_free hos hc hcnt hg]; simp
  · intro v
    rfl

/-- C10 witness at a concrete reachable state and mutator. -/
theorem c10_arc_get_mut_never_panics_witness :
    Reach (SyncCow.new (5 : Int)) ∧
    (SyncCow.edit (SyncCow.new (5 : Int)) (fun v => some (v + 1)) ≠ .internalPanic ∧
      (∀ v : Int, getMut ⟨1, true, v⟩ = some v)) :=
  ⟨Reach.new 5, c10_arc_get_mut_never_panics (fun v => some (v + 1)) (Reach.new 5)⟩

/-- C4: if the mutator fails (modelled by returning `none`), `edit`
propagates the failure to its caller (`mutatorPanic`, not `ok`) and the
container state — both slot pointers, the indicator, the counters and the
whole heap — is exactly the input state: the local clone `Box` is dropped
before any shared state is touched, so no new snapshot is installed and
subsequent `read` calls behave as before the failed `edit`. -/
theorem c4_mutator_failure_state_unchanged {st : CowState T} {c : Cell T}
    (g : T → Option T) (hre : Reach st)
    (hc : st.mem[ptrOf st.cow st.cow.latest]? = some c)
    (hg : g c.val = none) :
    SyncCow.edit st g = .mutatorPanic st := by
  have inv := seqInv_reach hre
  obtain ⟨os, hos, _, _, hcnt, _⟩ := seqInv_components inv
  exact edit_panic_eq st g inv.lock_free hos hc hcnt hg

/-- C4 witness: a failing mutator on the freshly constructed container. -/
theorem c4_mutator_failure_state_unchanged_witness :
    Reach (SyncCow.new (5 : Int)) ∧
    (SyncCow.new (5 : Int)).mem[ptrOf (SyncCow.new (5 : Int)).cow
        (SyncCow.new (5 : Int)).cow.latest]? = some ⟨1, true, 5⟩ ∧
    (fun (_ : Int) => (none : Option Int)) (Cell.val ⟨1, true, 5⟩) = none ∧
    SyncCow.edit (SyncCow.new (5 : Int)) (fun _ => none) =
      .mutatorPanic (SyncCow.new (5 : Int)) :=
  ⟨Reach.new 5, rfl, rfl,
    c4_mutator_failure_state_unchanged (fun _ => none) (Reach.new 5) rfl rfl⟩

/-- C1: the concrete scenario.  `new(5)`; `read()` returns a handle to `5`;
`edit(|x| *x = 9)`; the handle obtained before the edit still dereferences
to `5`; a fresh `read()` returns a handle to `9`. -/
theorem c1_concrete_scenario :
    ∃ (st1 : CowState Int) (h1 : Ptr) (st2 : CowState Int) (st3 : CowState Int) (h2 : Ptr),
      SyncCow.read? (SyncCow.new (5 : Int)) = some (st1, h1) ∧
      derefArc? st1.mem h1 = some 5 ∧
      SyncCow.edit st1 (fun _ => some 9) = .ok st2 ∧
      derefArc? st2.mem h1 = some 5 ∧
      SyncCow.read? st2 = some (st3, h2) ∧
      derefArc? st3.mem h2 = some 9 :=
  ⟨_, _, _, _, _, rfl, rfl, rfl, rfl, rfl, rfl⟩

theorem read?_none {st : CowState T} (hs : slotOf? st.cow.latest = none) :
    SyncCow.read? st = none := by
  unfold SyncCow.read?
  rw [hs]

theorem ptrOf_setLatest (c : SyncCow T) (e s : Nat) :
    ptrOf ({ c with latest := e } : SyncCow T) s = ptrOf c s := by
  unfold ptrOf
  split <;> rfl

/-- C7: `read` leaves the container unchanged.  A successful `read` returns
the container fields exactly as they were (the indicated slot's hazard
counter is incremented and then decremented back, so `st'.cow = st.cow`
covers the indicator, both slot pointers, both counters and the lock), its
only heap effect is bumping the strong count of the returned snapshot's
cell, and it behaves identically whatever the state of the write lock —
`read` never acquires it. -/
theorem c7_read_is_pure {st st' : CowState T} {hp : Ptr}
    (hr : SyncCow.read? st = some (st', hp)) :
    st'.cow = st.cow ∧
    hp = ptrOf st.cow st.cow.latest ∧
    st'.mem.length = st.mem.length ∧
    (∀ q, q ≠ hp → st'.mem[q]? = st.mem[q]?) ∧
    (∀ c, st.mem[hp]? = some c → st'.mem[hp]? = some { c with strong := c.strong + 1 }) ∧
    (∀ b, SyncCow.read? ⟨{ st.cow with writeLock := b }, st.mem⟩ =
        some (⟨{ st'.cow with writeLock := b }, st'.mem⟩, hp)) := by
  cases hs : slotOf? st.cow.latest with
  | none => rw [read?_none hs] at hr; cases hr
  | some s =>
    rw [read?_eq st hs] at hr
    rw [Option.some.injEq, Prod.mk.injEq] at hr
    obtain ⟨h1, h2⟩ := hr
    subst h2
    subst h1
    obtain ⟨hls, _⟩ := slotOf?_eq hs
    refine ⟨rfl, by rw [← hls], bumpStrong_length _ _, ?_, ?_, ?_⟩
    · intro q hq
      exact bumpStrong_getElem?_ne _ (Ne.symm hq)
    · intro c hc
      exact bumpStrong_getElem?_self hc
    · intro b
      rw [read?_eq ⟨{ st.cow with writeLock := b }, st.mem⟩ hs]
      rfl

/-- C7 witness: the frame property instantiated on `new(5)`. -/
theorem c7_read_is_pure_witness :
    SyncCow.read? (SyncCow.new (5 : Int)) = some (c7St1, 0) ∧
    (c7St1.cow = (SyncCow.new (5 : Int)).cow ∧
      (0 : Ptr) = ptrOf (SyncCow.new (5 : Int)).cow (SyncCow.new (5 : Int)).cow.latest ∧
      c7St1.mem.length = (SyncCow.new (5 : Int)).mem.length ∧
      (∀ q, q ≠ (0 : Ptr) → c7St1.mem[q]? = (SyncCow.new (5 : Int)).mem[q]?) ∧
      (∀ c, (SyncCow.new (5 : Int)).mem[(0 : Ptr)]? = some c →
        c7St1.mem[(0 : Ptr)]? = some { c with strong := c.strong + 1 }) ∧
      (∀ b, SyncCow.read? ⟨{ (SyncCow.new (5 : Int)).cow with writeLock := b },
            (SyncCow.new (5 : Int)).mem⟩ =
          some (⟨{ c7St1.cow with writeLock := b }, c7St1.mem⟩, 0))) :=
  ⟨rfl, c7_read_is_pure rfl⟩

/-- Full description of a successful `edit` from an invariant state: the
result state exists, `latest` is flipped to the formerly inactive slot,
that slot now points at the freshly appended cell holding the mutated value
with strong count 1, and the formerly active slot — pointer and cell — is
untouched. -/
theorem edit_ok_spec {st : CowState T} (inv : SeqInv st) {g : T → Option T}
    {c : Cell T} {v2 : T}
    (hc : st.mem[ptrOf st.cow st.cow.latest]? = some c)
    (hg : g c.val = some v2) :
    ∃ st', SyncCow.edit st g = .ok st' ∧
      st'.cow.latest = (st.cow.latest + 1) % 2 ∧
      otherSlot? st.cow.latest = some st'.cow.latest ∧
      ptrOf st'.cow st'.cow.latest = st.mem.length ∧
      st'.mem[st.mem.length]? = some ⟨1, true, v2⟩ ∧
      ptrOf st'.cow st.cow.latest = ptrOf st.cow st.cow.latest ∧
      st'.mem[ptrOf st.cow st.cow.latest]? = st.mem[ptrOf st.cow st.cow.latest]? ∧
      st'.mem.length = st.mem.length + 1 := by
  obtain ⟨⟨wl, lt, rp, rc, gp, gc⟩, mem⟩ := st
  have hwl : wl = false := inv.lock_free
  have hrc : rc = 0 := inv.redCnt0
  have hgc : gc = 0 := inv.greenCnt0
  have hrl : rp < mem.length := inv.red_lt
  have hgl : gp < mem.length := inv.green_lt
  have hrg : rp ≠ gp := inv.red_ne_green
  have hl2 : lt < 2 := inv.latest_lt
  subst hwl hrc hgc
  rcases show lt = 0 ∨ lt = 1 by omega with hl | hl
  all_goals subst hl
  · refine ⟨_, edit_ok_eq _ g rfl rfl hc rfl hg, ?_, ?_, ?_, ?_, ?_, ?_, ?_⟩
    · with_unfolding_all rfl
    · with_unfolding_all rfl
    · with_unfolding_all rfl
    · show (freeBox (mem ++ [⟨1, true, v2⟩]) gp)[mem.length]? = some ⟨1, true, v2⟩
      rw [freeBox_getElem?_ne _ (Nat.ne_of_lt hgl)]
      simp
    · with_unfolding_all rfl
    · show (freeBox (mem ++ [⟨1, true, v2⟩]) gp)[rp]? = mem[rp]?
      rw [freeBox_getElem?_ne _ (Ne.symm hrg)]
      exact List.getElem?_append_left hrl
    · show (freeBox (mem ++ [⟨1, true, v2⟩]) gp).length = mem.length + 1
      rw [freeBox_length]
      simp
  · refine ⟨_, edit_ok_eq _ g rfl rfl hc rfl hg, ?_, ?_, ?_, ?_, ?_, ?_, ?_⟩
    · with_unfolding_all rfl
    · with_unfolding_all rfl
    · with_unfolding_all rfl
    · show (freeBox (mem ++ [⟨1, true, v2⟩]) rp)[mem.length]? = some ⟨1, true, v2⟩
      rw [freeBox_getElem?_ne _ (Nat.ne_of_lt hrl)]
      simp
    · with_unfolding_all rfl
    · show (freeBox (mem ++ [⟨1, true, v2⟩]) rp)[gp]? = mem[gp]?
      rw [freeBox_getElem?_ne _ hrg]
      exact List.getElem?_append_left hgl
    · show (freeBox (mem ++ [⟨1, true, v2⟩]) rp).length = mem.length + 1
      rw [freeBox_length]
      simp

/-- C6: a normally returning `edit` flips the active indicator to
`(entry value + 1) mod 2`, which names the slot that was inactive at entry
(`otherSlot?`), and that slot now holds the freshly installed snapshot (the
new heap cell containing the mutator's result); the formerly active slot's
pointer and the cell it points to are unchanged. -/
theorem c6_edit_flips_frames_old_slot {st st' : CowState T} {g : T → Option T}
    (hre : Reach st) (hok : SyncCow.edit st g = .ok st') :
    st'.cow.latest = (st.cow.latest + 1) % 2 ∧
    otherSlot? st.cow.latest = some st'.cow.latest ∧
    ptrOf st'.cow st'.cow.latest = st.mem.length ∧
    (∃ c v2, st.mem[ptrOf st.cow st.cow.latest]? = some c ∧ g c.val = some v2 ∧
      st'.mem[st.mem.length]? = some ⟨1, true, v2⟩) ∧
    ptrOf st'.cow st.cow.latest = ptrOf st.cow st.cow.latest ∧
    st'.mem[ptrOf st.cow st.cow.latest]? = st.mem[ptrOf st.cow st.cow.latest]? := by
  have inv := seqInv_reach hre
  obtain ⟨os, hos, hos01, hosne, hcnt, hpne, hoslt, hllt, ⟨c, hc, hca, hcs⟩, hgos⟩ :=
    seqInv_components inv
  cases hg : g c.val with
  | none =>
    rw [edit_panic_eq st g inv.lock_free hos hc hcnt hg] at hok
    cases hok
  | some v2 =>
    obtain ⟨st'', heq, hl', ho', hptr', hcell', hold', holdm', _⟩ := edit_ok_spec inv hc hg
    rw [heq] at hok
    injection hok with hok
    subst hok
    exact ⟨hl', ho', hptr', ⟨c, v2, hc, hg, hcell'⟩, hold', holdm'⟩

/-- C6 witness: the flip-and-frame property instantiated on `new(5)` and
the mutator writing `9`. -/
theorem c6_edit_flips_frames_old_slot_witness :
    Reach (SyncCow.new (5 : Int)) ∧
    SyncCow.edit (SyncCow.new (5 : Int)) (fun _ => some 9) = .ok c6St2 ∧
    (c6St2.cow.latest = ((SyncCow.new (5 : Int)).cow.latest + 1) % 2 ∧
      otherSlot? (SyncCow.new (5 : Int)).cow.latest = some c6St2.cow.latest ∧
      ptrOf c6St2.cow c6St2.cow.latest = (SyncCow.new (5 : Int)).mem.length ∧
      (∃ c v2, (SyncCow.new (5 : Int)).mem[ptrOf (SyncCow.new (5 : Int)).cow
          (SyncCow.new (5 : Int)).cow.latest]? = some c ∧
        (fun (_ : Int) => some (9 : Int)) c.val = some v2 ∧
        c6St2.mem[(SyncCow.new (5 : Int)).mem.length]? = some ⟨1, true, v2⟩) ∧
      ptrOf c6St2.cow (SyncCow.new (5 : Int)).cow.latest =
        ptrOf (SyncCow.new (5 : Int)).cow (SyncCow.new (5 : Int)).cow.latest ∧
      c6St2.mem[ptrOf (SyncCow.new (5 : Int)).cow (SyncCow.new (5 : Int)).cow.latest]? =
        (SyncCow.new (5 : Int)).mem[ptrOf (SyncCow.new (5 : Int)).cow
          (SyncCow.new (5 : Int)).cow.latest]?) :=
  ⟨Reach.new 5, rfl,
    @c6_edit_flips_frames_old_slot Int (SyncCow.new 5) c6St2 (fun _ => some 9)
      (Reach.new 5) rfl⟩

/-- In a reachable state whose active slot cell is `c`, `read` returns a
handle that dereferences to `c.val`. -/
theorem readValue?_of_active {st : CowState T} {c : Cell T} (hre : Reach st)
    (hc : st.mem[ptrOf st.cow st.cow.latest]? = some c) :
    readValue? st = some c.val := by
  have inv := seqInv_reach hre
  unfold readValue?
  rw [read?_eq st (slotOf?_of_lt inv.latest_lt)]
  simp only [derefArc?, bumpStrong_getElem?_self hc]
  simp

/-- After `n` increment edits the state is reachable and the active slot
cell holds `v0 + n` with a positive strong count. -/
theorem afterEdits_active (v0 : Int) (n : Nat) :
    Reach (afterEdits v0 n) ∧
    ∃ c, (afterEdits v0 n).mem[ptrOf (afterEdits v0 n).cow
        (afterEdits v0 n).cow.latest]? = some c ∧ c.val = v0 + n := by
  induction n with
  | zero => exact ⟨Reach.new v0, ⟨1, true, v0⟩, rfl, by simp⟩
  | succ n ih =>
    obtain ⟨hre, c, hc, hval⟩ := ih
    have inv := seqInv_reach hre
    have hg : incMut c.val = some (c.val + 1) := rfl
    obtain ⟨st', heq, hl', ho', hptr', hcell', hold', holdm', hlen'⟩ :=
      edit_ok_spec inv hc hg
    have hstep : afterEdits v0 (n + 1) = st' := by
      show (match SyncCow.edit (afterEdits v0 n) incMut with
            | .ok st => st
            | _ => afterEdits v0 n) = st'
      rw [heq]
    rw [hstep]
    refine ⟨Reach.edit _ _ _ hre heq, ⟨1, true, c.val + 1⟩, ?_, ?_⟩
    · rw [hptr']
      exact hcell'
    · show c.val + 1 = v0 + ((n : Int) + 1)
      rw [hval]
      ring

/-- C2: starting from `new(v0)`, after `N` sequential increment edits, a
`read` taken after the `j`-th edit (`k ≤ j ≤ N`, so strictly after the
`k`-th edit has returned) yields exactly `v0 + j`, which lies between
`v0 + k` and `v0 + N`; in particular a `read` after all `N` edits yields
exactly `v0 + N`. -/
theorem c2_sequential_increment_edits (v0 : Int) (N k j : Nat)
    (_hk1 : 1 ≤ k) (hkj : k ≤ j) (hjN : j ≤ N) :
    (readValue? (afterEdits v0 j) = some (v0 + j) ∧
      v0 + k ≤ v0 + (j : Int) ∧ v0 + (j : Int) ≤ v0 + (N : Int)) ∧
    readValue? (afterEdits v0 N) = some (v0 + N) := by
  obtain ⟨hrej, cj, hcj, hvalj⟩ := afterEdits_active v0 j
  obtain ⟨hreN, cN, hcN, hvalN⟩ := afterEdits_active v0 N
  refine ⟨⟨?_, by omega, by omega⟩, ?_⟩
  · rw [readValue?_of_active hrej hcj, hvalj]
  · rw [readValue?_of_active hreN hcN, hvalN]

/-- C2 witness at `v0 = 5`, `N = 3`, `k = 1`, `j = 2`. -/
theorem c2_sequential_increment_edits_witness :
    (1 ≤ 1 ∧ 1 ≤ 2 ∧ 2 ≤ 3) ∧
    ((readValue? (afterEdits 5 2) = some (5 + (2 : Nat)) ∧
        (5 : Int) + (1 : Nat) ≤ 5 + (2 : Nat) ∧
        (5 : Int) + (2 : Nat) ≤ 5 + (3 : Nat)) ∧
      readValue? (afterEdits 5 3) = some (5 + (3 : Nat))) :=
  ⟨⟨le_refl 1, by omega, by omega⟩,
    c2_sequential_increment_edits 5 3 1 2 (le_refl 1) (by omega) (by omega)⟩

/-! ### Helper lemmas for the interleaved invariant -/

theorem countP_set {α : Type} (p : α → Bool) (l : List α) (i : Nat) (a b : α)
    (h : l[i]? = some b) :
    (l.set i a).countP p + (if p b then 1 else 0) =
      l.countP p + (if p a then 1 else 0) := by
  induction l generalizing i with
  | nil => cases h
  | cons x xs ih =>
    cases i with
    | zero =>
      rw [List.getElem?_cons_zero] at h
      obtain rfl : x = b := Option.some_inj.mp h
      simp only [List.set_cons_zero, List.countP_cons]
      omega
    | succ i =>
      rw [List.getElem?_cons_succ] at h
      simp only [List.set_cons_succ, List.countP_cons]
      have := ih i h
      omega

theorem readers_set_inv {α : Type} {l : List α} {j i : Nat} {a x : α}
    (h : (l.set j a)[i]? = some x) : x = a ∨ l[i]? = some x := by
  by_cases hij : i = j
  · subst hij
    by_cases hj : i < l.length
    · rw [List.getElem?_set_eq_of_lt a hj] at h
      exact Or.inl (Option.some_inj.mp h).symm
    · rw [List.set_eq_of_length_le (Nat.le_of_not_lt hj)] at h
      exact Or.inr h
  · rw [List.getElem?_set_ne (fun he => hij he.symm)] at h
    exact Or.inr h

theorem countP_set_congr {α : Type} {p : α → Bool} {l : List α} {i : Nat} {a b : α}
    (h : l[i]? = some b) (hab : p a = p b) : (l.set i a).countP p = l.countP p := by
  have hh := countP_set p l i a b h
  rw [hab] at hh
  exact Nat.add_right_cancel hh

theorem countP_set_add {α : Type} {p : α → Bool} {l : List α} {i : Nat} {a b : α}
    (h : l[i]? = some b) (hb : p b = false) (ha : p a = true) :
    (l.set i a).countP p = l.countP p + 1 := by
  have hh := countP_set p l i a b h
  rw [hb, ha] at hh
  simp at hh
  exact hh

theorem countP_set_sub {α : Type} {p : α → Bool} {l : List α} {i : Nat} {a b : α}
    (h : l[i]? = some b) (hb : p b = true) (ha : p a = false) :
    (l.set i a).countP p = l.countP p - 1 := by
  have hh := countP_set p l i a b h
  rw [hb, ha] at hh
  simp at hh
  omega

theorem countP_pos_of_getElem? {α : Type} {l : List α} {i : Nat} {b : α}
    {p : α → Bool} (h : l[i]? = some b) (hb : p b = true) : 0 < l.countP p := by
  induction l generalizing i with
  | nil => cases h
  | cons x xs ih =>
    cases i with
    | zero =>
      rw [List.getElem?_cons_zero] at h
      obtain rfl : x = b := Option.some_inj.mp h
      rw [List.countP_cons, hb]
      simp
    | succ i =>
      rw [List.getElem?_cons_succ] at h
      have := ih (i := i) h
      rw [List.countP_cons]
      omega

theorem setCnt_latest (c : SyncCow T) (s n : Nat) : (setCnt c s n).latest = c.latest := by
  unfold setCnt; split <;> rfl

theorem setCnt_writeLock (c : SyncCow T) (s n : Nat) :
    (setCnt c s n).writeLock = c.writeLock := by
  unfold setCnt; split <;> rfl

theorem setCnt_redPtr (c : SyncCow T) (s n : Nat) : (setCnt c s n).redPtr = c.redPtr := by
  unfold setCnt; split <;> rfl

theorem setCnt_greenPtr (c : SyncCow T) (s n : Nat) :
    (setCnt c s n).greenPtr = c.greenPtr := by
  unfold setCnt; split <;> rfl

theorem ptrOf_setCnt (c : SyncCow T) (s n s' : Nat) :
    ptrOf (setCnt c s n) s' = ptrOf c s' := by
  unfold ptrOf setCnt
  split <;> split <;> rfl

theorem cntOf_setCnt_other (c : SyncCow T) {s s' : Nat} (n : Nat)
    (hs : (s = 0 ∧ s' = 1) ∨ (s = 1 ∧ s' = 0)) :
    cntOf (setCnt c s n) s' = cntOf c s' := by
  rcases hs with ⟨h1, h2⟩ | ⟨h1, h2⟩ <;> subst h1 <;> subst h2 <;> rfl

theorem setPtr_latest (c : SyncCow T) (s : Nat) (p : Ptr) :
    (setPtr c s p).latest = c.latest := by
  unfold setPtr; split <;> rfl

theorem cntOf_setPtr (c : SyncCow T) (s : Nat) (p : Ptr) (s' : Nat) :
    cntOf (setPtr c s p) s' = cntOf c s' := by
  unfold cntOf setPtr
  split <;> split <;> rfl

theorem aliveAt_bumpStrong {mem : List (Cell T)} {q : Ptr} (p : Ptr)
    (h : aliveAt mem q) : aliveAt (bumpStrong mem p) q := by
  obtain ⟨c, hc, ha⟩ := h
  by_cases hpq : p = q
  · subst hpq
    exact ⟨_, bumpStrong_getElem?_self hc, ha⟩
  · exact ⟨c, (bumpStrong_getElem?_ne mem hpq).trans hc, ha⟩

theorem aliveAt_append {mem : List (Cell T)} {q : Ptr} (l : List (Cell T))
    (h : aliveAt mem q) : aliveAt (mem ++ l) q := by
  obtain ⟨c, hc, ha⟩ := h
  exact ⟨c, (List.getElem?_append_left (List.getElem?_eq_some.mp hc).1).trans hc, ha⟩

theorem aliveAt_append_fresh (mem : List (Cell T)) (v : T) :
    aliveAt (mem ++ [⟨1, true, v⟩]) mem.length := by
  refine ⟨⟨1, true, v⟩, ?_, rfl⟩
  simp

theorem aliveAt_freeBox_ne {mem : List (Cell T)} {q : Ptr} {p : Ptr} (hpq : p ≠ q)
    (h : aliveAt mem q) : aliveAt (freeBox mem p) q := by
  obtain ⟨c, hc, ha⟩ := h
  exact ⟨c, (freeBox_getElem?_ne mem hpq).trans hc, ha⟩

theorem otherSlot?_facts {l os : Nat} (h : otherSlot? l = some os) :
    os ≠ l ∧ os < 2 ∧ l < 2 ∧ ((l = 0 ∧ os = 1) ∨ (l = 1 ∧ os = 0)) := by
  rcases otherSlot?_eq h with ⟨h1, h2⟩ | ⟨h1, h2⟩ <;> subst h1 <;> subst h2 <;>
    refine ⟨by omega, by omega, by omega, ?_⟩
  · exact Or.inl ⟨rfl, rfl⟩
  · exact Or.inr ⟨rfl, rfl⟩

theorem setPtr_redCnt (c : SyncCow T) (s : Nat) (p : Ptr) :
    (setPtr c s p).redCnt = c.redCnt := by
  unfold setPtr; split <;> rfl

theorem setPtr_greenCnt (c : SyncCow T) (s : Nat) (p : Ptr) :
    (setPtr c s p).greenCnt = c.greenCnt := by
  unfold setPtr; split <;> rfl

/-- Transfer of `WriterInv` along a step that leaves the writer and the
projections it mentions unchanged. -/
theorem writerInv_frame {g g' : GState T}
    (hw : g'.writer = g.writer) (hmem : g'.mem = g.mem)
    (hlat : g'.cow.latest = g.cow.latest)
    (hlock : g'.cow.writeLock = g.cow.writeLock)
    (hrp : g'.cow.redPtr = g.cow.redPtr) (hgp : g'.cow.greenPtr = g.cow.greenPtr)
    (h : WriterInv g) : WriterInv g' := by
  unfold WriterInv at h ⊢
  rw [hw, hmem, hlat, hlock, hrp, hgp]
  exact h

/-- Transfer of `WriterInv` along a step that only grows or refcounts the
heap (lengths do not shrink, live cells stay live). -/
theorem writerInv_mem_mono {g g' : GState T}
    (hw : g'.writer = g.writer) (hcow : g'.cow = g.cow)
    (hlen : g.mem.length ≤ g'.mem.length)
    (halive : ∀ p, aliveAt g.mem p → aliveAt g'.mem p)
    (h : WriterInv g) : WriterInv g' := by
  unfold WriterInv at h ⊢
  rw [hw, hcow]
  cases hww : g.writer with
  | idle => rw [hww] at h; exact h
  | gotLatest l => rw [hww] at h; exact h
  | loadedPtr l p => rw [hww] at h; exact h
  | cloned l newp =>
    rw [hww] at h
    obtain ⟨h1, h2, h3, h4, h5, h6⟩ := h
    exact ⟨h1, Nat.lt_of_lt_of_le h2 hlen, halive _ h3, h4, h5, h6⟩
  | swapped l oldp =>
    rw [hww] at h
    obtain ⟨h1, h2, h3, h4, h5, h6⟩ := h
    exact ⟨h1, Nat.lt_of_lt_of_le h2 hlen, halive _ h3, h4, h5, h6⟩
  | drained l oldp =>
    rw [hww] at h
    obtain ⟨h1, h2, h3, h4, h5, h6⟩ := h
    exact ⟨h1, Nat.lt_of_lt_of_le h2 hlen, halive _ h3, h4, h5, h6⟩
  | flipped l oldp =>
    rw [hww] at h
    obtain ⟨h1, h2, h3, h4, h5, h6, h7⟩ := h
    exact ⟨h1, h2, Nat.lt_of_lt_of_le h3 hlen, halive _ h4, h5, h6, h7⟩

/-- Transfer of `ReaderInv` along a step, given transfer of liveness and of
the loaded-pointer disjunct. -/
theorem readerInv_transfer {g g' : GState T} {pc : ReaderPC}
    (h : ReaderInv g pc)
    (hlen : g.mem.length ≤ g'.mem.length)
    (halive : ∀ p, aliveAt g.mem p → aliveAt g'.mem p)
    (hgot : ∀ s p, pc = .gotPtr s p → s < 2 →
        (p = ptrOf g.cow s ∨ ∃ l, g.writer = .swapped l p ∧ otherSlot? l = some s) →
        (p = ptrOf g'.cow s ∨ ∃ l, g'.writer = .swapped l p ∧ otherSlot? l = some s)) :
    ReaderInv g' pc := by
  cases pc with
  | idle => trivial
  | gotLatest l => exact h
  | incr s => exact h
  | cloned s p => exact h
  | gotPtr s p =>
    obtain ⟨hs, hlt, hal, hd⟩ := h
    exact ⟨hs, Nat.lt_of_lt_of_le hlt hlen, halive p hal, hgot s p rfl hs hd⟩

/-- Preservation: every step of the interleaved system preserves `GInv`. -/
theorem gInv_step {g g' : GState T} {e : Ev} (inv : GInv g) (hs : Step g e g') :
    GInv g' := by
  cases hs with
  | @wLockLoad hw =>
    refine ⟨inv.latest_lt, inv.red_lt, inv.green_lt, inv.red_ne_green, inv.red_alive,
      inv.green_alive, ⟨rfl, rfl⟩, ?_, inv.cnt_red, inv.cnt_green⟩
    intro i pc hpc
    refine readerInv_transfer (inv.readers_ok i pc hpc) (Nat.le_refl _) (fun p hp => hp) ?_
    intro s p _ _ hd
    rcases hd with hp | ⟨l', hww, _⟩
    · exact Or.inl hp
    · rw [hw] at hww; cases hww
  | @wLoadPtr l os hw hos =>
    have wok := inv.writer_ok
    unfold WriterInv at wok
    rw [hw] at wok
    obtain ⟨h1, h2⟩ := wok
    refine ⟨inv.latest_lt, inv.red_lt, inv.green_lt, inv.red_ne_green, inv.red_alive,
      inv.green_alive, ⟨h1, h2⟩, ?_, inv.cnt_red, inv.cnt_green⟩
    intro i pc hpc
    refine readerInv_transfer (inv.readers_ok i pc hpc) (Nat.le_refl _) (fun p hp => hp) ?_
    intro s p _ _ hd
    rcases hd with hp | ⟨l', hww, _⟩
    · exact Or.inl hp
    · rw [hw] at hww; cases hww
  | @wClone l p v2 hw =>
    have wok := inv.writer_ok
    unfold WriterInv at wok
    rw [hw] at wok
    obtain ⟨h1, h2⟩ := wok
    have hlen : g.mem.length ≤ (g.mem ++ [(⟨1, true, v2⟩ : Cell T)]).length := by
      rw [List.length_append]
      exact Nat.le_add_right _ _
    refine ⟨inv.latest_lt, Nat.lt_of_lt_of_le inv.red_lt hlen,
      Nat.lt_of_lt_of_le inv.green_lt hlen, inv.red_ne_green,
      aliveAt_append _ inv.red_alive, aliveAt_append _ inv.green_alive,
      ⟨h1, ?_, aliveAt_append_fresh _ _, Ne.symm (Nat.ne_of_lt inv.red_lt),
        Ne.symm (Nat.ne_of_lt inv.green_lt), h2⟩, ?_, inv.cnt_red, inv.cnt_green⟩
    · rw [List.length_append]
      exact Nat.lt_succ_self _
    · intro i pc hpc
      refine readerInv_transfer (inv.readers_ok i pc hpc) hlen
        (fun q hq => aliveAt_append _ hq) ?_
      intro s q _ _ hd
      rcases hd with hp | ⟨l', hww, _⟩
      · exact Or.inl hp
      · rw [hw] at hww; cases hww
  | @wSwap l os newp hw hos =>
    obtain ⟨hosne, hos2, hl2w, hpair⟩ := otherSlot?_facts hos
    have wok := inv.writer_ok
    unfold WriterInv at wok
    rw [hw] at wok
    obtain ⟨h1, hnlt, hnal, hnr, hng, hlock⟩ := wok
    rcases hpair with ⟨hl0, hos1⟩ | ⟨hl1, hos0⟩
    · subst hl0
      subst hos1
      refine ⟨inv.latest_lt, inv.red_lt, hnlt, fun hh => hnr hh.symm, inv.red_alive, hnal,
        ⟨h1, inv.green_lt, inv.green_alive, Ne.symm inv.red_ne_green, Ne.symm hng, hlock⟩,
        ?_, inv.cnt_red, inv.cnt_green⟩
      intro i pc hpc
      refine readerInv_transfer (inv.readers_ok i pc hpc) (Nat.le_refl _) (fun q hq => hq) ?_
      intro s q _ hs2 hd
      rcases hd with hp | ⟨l', hww, _⟩
      · by_cases hs1 : s = 1
        · subst hs1
          exact Or.inr ⟨0, by rw [hp], rfl⟩
        · have hs0 : s = 0 := by omega
          subst hs0
          exact Or.inl hp
      · rw [hw] at hww; cases hww
    · subst hl1
      subst hos0
      refine ⟨inv.latest_lt, hnlt, inv.green_lt, hng, hnal, inv.green_alive, ?_,
        ?_, inv.cnt_red, inv.cnt_green⟩
      · exact ⟨h1, inv.red_lt, inv.red_alive, Ne.symm hnr, inv.red_ne_green, hlock⟩
      · intro i pc hpc
        refine readerInv_transfer (inv.readers_ok i pc hpc) (Nat.le_refl _) (fun q hq => hq) ?_
        intro s q _ hs2 hd
        rcases hd with hp | ⟨l', hww, _⟩
        · by_cases hs0 : s = 0
          · subst hs0
            exact Or.inr ⟨1, by rw [hp], rfl⟩
          · have hs1 : s = 1 := by omega
            subst hs1
            exact Or.inl hp
        · rw [hw] at hww; cases hww
  | @wObserveZero l os oldp hw hos hcnt =>
    obtain ⟨hosne, hos2, hl2w, hpair⟩ := otherSlot?_facts hos
    have wok := inv.writer_ok
    unfold WriterInv at wok
    rw [hw] at wok
    obtain ⟨h1, h2, h3, h4, h5, h6⟩ := wok
    refine ⟨inv.latest_lt, inv.red_lt, inv.green_lt, inv.red_ne_green, inv.red_alive,
      inv.green_alive, ⟨h1, h2, h3, h4, h5, h6⟩, ?_, inv.cnt_red, inv.cnt_green⟩
    intro i pc hpc
    refine readerInv_transfer (inv.readers_ok i pc hpc) (Nat.le_refl _) (fun q hq => hq) ?_
    intro s q hpceq _ hd
    rcases hd with hp | ⟨l', hww, hos'⟩
    · exact Or.inl hp
    · exfalso
      rw [hw] at hww
      injection hww with hleq hpeq
      subst hleq
      rw [hos] at hos'
      have hsos : os = s := Option.some_inj.mp hos'
      subst hsos
      have hpc' : g.readers[i]? = some (.gotPtr os q) := by rw [← hpceq]; exact hpc
      have hcount := countP_pos_of_getElem? (p := holdsSlot os) hpc' (decide_eq_true rfl)
      rcases (show os = 0 ∨ os = 1 by omega) with h | h
      · subst h
        have hz : g.cow.redCnt = 0 := hcnt
        have hcc := inv.cnt_red
        omega
      · subst h
        have hz : g.cow.greenCnt = 0 := hcnt
        have hcc := inv.cnt_green
        omega
  | @wFlip l oldp hw =>
    have wok := inv.writer_ok
    unfold WriterInv at wok
    rw [hw] at wok
    obtain ⟨h1, h2, h3, h4, h5, h6⟩ := wok
    have hl2 : l < 2 := by rw [h1]; exact inv.latest_lt
    refine ⟨Nat.mod_lt _ (by norm_num), inv.red_lt, inv.green_lt, inv.red_ne_green,
      inv.red_alive, inv.green_alive, ⟨rfl, hl2, h2, h3, h4, h5, h6⟩, ?_,
      inv.cnt_red, inv.cnt_green⟩
    intro i pc hpc
    refine readerInv_transfer (inv.readers_ok i pc hpc) (Nat.le_refl _) (fun q hq => hq) ?_
    intro s q _ _ hd
    rcases hd with hp | ⟨l', hww, _⟩
    · exact Or.inl hp
    · rw [hw] at hww; cases hww
  | @wFree l oldp hw =>
    have wok := inv.writer_ok
    unfold WriterInv at wok
    rw [hw] at wok
    obtain ⟨h1, hl2, h3, h4, h5, h6, h7⟩ := wok
    refine ⟨inv.latest_lt, ?_, ?_, inv.red_ne_green, aliveAt_freeBox_ne h5 inv.red_alive,
      aliveAt_freeBox_ne h6 inv.green_alive, rfl, ?_, inv.cnt_red, inv.cnt_green⟩
    · rw [freeBox_length]; exact inv.red_lt
    · rw [freeBox_length]; exact inv.green_lt
    · intro i pc hpc
      have hold := inv.readers_ok i pc hpc
      cases pc with
      | idle => trivial
      | gotLatest l' => exact hold
      | incr s => exact hold
      | cloned s p => exact hold
      | gotPtr s p =>
        obtain ⟨hs2, hplt, hal, hd⟩ := hold
        rcases hd with hp | ⟨l', hww, _⟩
        · have hpne : oldp ≠ p := by
            rcases (show s = 0 ∨ s = 1 by omega) with h | h
            · subst h; rw [hp]; exact h5
            · subst h; rw [hp]; exact h6
          exact ⟨hs2, by rw [freeBox_length]; exact hplt, aliveAt_freeBox_ne hpne hal,
            Or.inl hp⟩
        · rw [hw] at hww; cases hww
  | @rLoadLatest i hr =>
    refine ⟨inv.latest_lt, inv.red_lt, inv.green_lt, inv.red_ne_green, inv.red_alive,
      inv.green_alive, writerInv_frame rfl rfl rfl rfl rfl rfl inv.writer_ok, ?_, ?_, ?_⟩
    · intro i' pc hpc
      rcases readers_set_inv hpc with rfl | hold
      · exact inv.latest_lt
      · exact readerInv_transfer (inv.readers_ok i' pc hold) (Nat.le_refl _)
          (fun q hq => hq) (fun s q _ _ hd => hd)
    · show g.cow.redCnt = List.countP (holdsSlot 0) (g.readers.set i (.gotLatest g.cow.latest))
      rw [countP_set_congr hr (by simp [holdsSlot])]
      exact inv.cnt_red
    · show g.cow.greenCnt = List.countP (holdsSlot 1) (g.readers.set i (.gotLatest g.cow.latest))
      rw [countP_set_congr hr (by simp [holdsSlot])]
      exact inv.cnt_green
  | @rIncr i l s hr hs =>
    obtain ⟨hls, hs01⟩ := slotOf?_eq hs
    rcases hs01 with hs0 | hs1
    · subst hs0
      refine ⟨inv.latest_lt, inv.red_lt, inv.green_lt, inv.red_ne_green, inv.red_alive,
        inv.green_alive, writerInv_frame rfl rfl rfl rfl rfl rfl inv.writer_ok, ?_, ?_, ?_⟩
      · intro i' pc hpc
        rcases readers_set_inv hpc with rfl | hold
        · show (0:Nat) < 2; omega
        · exact readerInv_transfer (inv.readers_ok i' pc hold) (Nat.le_refl _)
            (fun q hq => hq) (fun s' q _ _ hd => hd)
      · show g.cow.redCnt + 1 = List.countP (holdsSlot 0) (g.readers.set i (.incr 0))
        rw [countP_set_add hr (by simp [holdsSlot]) (by simp [holdsSlot])]
        rw [inv.cnt_red]
      · show g.cow.greenCnt = List.countP (holdsSlot 1) (g.readers.set i (.incr 0))
        rw [countP_set_congr hr (by simp [holdsSlot])]
        exact inv.cnt_green
    · subst hs1
      refine ⟨inv.latest_lt, inv.red_lt, inv.green_lt, inv.red_ne_green, inv.red_alive,
        inv.green_alive, writerInv_frame rfl rfl rfl rfl rfl rfl inv.writer_ok, ?_, ?_, ?_⟩
      · intro i' pc hpc
        rcases readers_set_inv hpc with rfl | hold
        · show (1:Nat) < 2; omega
        · exact readerInv_transfer (inv.readers_ok i' pc hold) (Nat.le_refl _)
            (fun q hq => hq) (fun s' q _ _ hd => hd)
      · show g.cow.redCnt = List.countP (holdsSlot 0) (g.readers.set i (.incr 1))
        rw [countP_set_congr hr (by simp [holdsSlot])]
        exact inv.cnt_red
      · show g.cow.greenCnt + 1 = List.countP (holdsSlot 1) (g.readers.set i (.incr 1))
        rw [countP_set_add hr (by simp [holdsSlot]) (by simp [holdsSlot])]
        rw [inv.cnt_green]
  | @rLoadPtr i s hr =>
    have hs2 : s < 2 := inv.readers_ok i _ hr
    refine ⟨inv.latest_lt, inv.red_lt, inv.green_lt, inv.red_ne_green, inv.red_alive,
      inv.green_alive, writerInv_frame rfl rfl rfl rfl rfl rfl inv.writer_ok, ?_, ?_, ?_⟩
    · intro i' pc hpc
      rcases readers_set_inv hpc with rfl | hold
      · refine ⟨hs2, ?_, ?_, Or.inl rfl⟩
        · rcases (show s = 0 ∨ s = 1 by omega) with h | h <;> subst h
          · exact inv.red_lt
          · exact inv.green_lt
        · rcases (show s = 0 ∨ s = 1 by omega) with h | h <;> subst h
          · exact inv.red_alive
          · exact inv.green_alive
      · exact readerInv_transfer (inv.readers_ok i' pc hold) (Nat.le_refl _)
          (fun q hq => hq) (fun s' q _ _ hd => hd)
    · show g.cow.redCnt = List.countP (holdsSlot 0) (g.readers.set i (.gotPtr s (ptrOf g.cow s)))
      rw [countP_set_congr hr (by simp [holdsSlot])]
      exact inv.cnt_red
    · show g.cow.greenCnt =
          List.countP (holdsSlot 1) (g.readers.set i (.gotPtr s (ptrOf g.cow s)))
      rw [countP_set_congr hr (by simp [holdsSlot])]
      exact inv.cnt_green
  | @rClone i s p hr =>
    obtain ⟨hs2, hplt, hal, hd⟩ := inv.readers_ok i _ hr
    have hlen : g.mem.length ≤ (bumpStrong g.mem p).length := by
      rw [bumpStrong_length]
    refine ⟨inv.latest_lt, ?_, ?_, inv.red_ne_green, aliveAt_bumpStrong _ inv.red_alive,
      aliveAt_bumpStrong _ inv.green_alive,
      writerInv_mem_mono (g := g) rfl rfl hlen (fun q hq => aliveAt_bumpStrong _ hq)
        inv.writer_ok,
      ?_, ?_, ?_⟩
    · rw [bumpStrong_length]; exact inv.red_lt
    · rw [bumpStrong_length]; exact inv.green_lt
    · intro i' pc hpc
      rcases readers_set_inv hpc with rfl | hold
      · exact hs2
      · exact readerInv_transfer (inv.readers_ok i' pc hold) hlen
          (fun q hq => aliveAt_bumpStrong _ hq) (fun s' q _ _ hdq => hdq)
    · show g.cow.redCnt = List.countP (holdsSlot 0) (g.readers.set i (.cloned s p))
      rw [countP_set_congr hr (by simp [holdsSlot])]
      exact inv.cnt_red
    · show g.cow.greenCnt = List.countP (holdsSlot 1) (g.readers.set i (.cloned s p))
      rw [countP_set_congr hr (by simp [holdsSlot])]
      exact inv.cnt_green
  | @rDecr i s p hr =>
    have hs2 : s < 2 := inv.readers_ok i _ hr
    rcases (show s = 0 ∨ s = 1 by omega) with h | h
    · subst h
      have hcount := countP_pos_of_getElem? hr (p := holdsSlot 0) (by simp [holdsSlot])
      refine ⟨inv.latest_lt, inv.red_lt, inv.green_lt, inv.red_ne_green, inv.red_alive,
        inv.green_alive, writerInv_frame rfl rfl rfl rfl rfl rfl inv.writer_ok, ?_, ?_, ?_⟩
      · intro i' pc hpc
        rcases readers_set_inv hpc with rfl | hold
        · trivial
        · exact readerInv_transfer (inv.readers_ok i' pc hold) (Nat.le_refl _)
            (fun q hq => hq) (fun s' q _ _ hd => hd)
      · show g.cow.redCnt - 1 = List.countP (holdsSlot 0) (g.readers.set i .idle)
        rw [countP_set_sub hr (by simp [holdsSlot]) (by simp [holdsSlot])]
        rw [inv.cnt_red]
      · show g.cow.greenCnt = List.countP (holdsSlot 1) (g.readers.set i .idle)
        rw [countP_set_congr hr (by simp [holdsSlot])]
        exact inv.cnt_green
    · subst h
      have hcount := countP_pos_of_getElem? hr (p := holdsSlot 1) (by simp [holdsSlot])
      refine ⟨inv.latest_lt, inv.red_lt, inv.green_lt, inv.red_ne_green, inv.red_alive,
        inv.green_alive, writerInv_frame rfl rfl rfl rfl rfl rfl inv.writer_ok, ?_, ?_, ?_⟩
      · intro i' pc hpc
        rcases readers_set_inv hpc with rfl | hold
        · trivial
        · exact readerInv_transfer (inv.readers_ok i' pc hold) (Nat.le_refl _)
            (fun q hq => hq) (fun s' q _ _ hd => hd)
      · show g.cow.redCnt = List.countP (holdsSlot 0) (g.readers.set i .idle)
        rw [countP_set_congr hr (by simp [holdsSlot])]
        exact inv.cnt_red
      · show g.cow.greenCnt - 1 = List.countP (holdsSlot 1) (g.readers.set i .idle)
        rw [countP_set_sub hr (by simp [holdsSlot]) (by simp [holdsSlot])]
        rw [inv.cnt_green]

/-- The initial state satisfies the invariant. -/
theorem gInv_init (v : T) (n : Nat) : GInv (init v n) := by
  refine ⟨Nat.zero_lt_two, Nat.zero_lt_two, Nat.one_lt_two, Nat.zero_ne_one,
    ⟨⟨1, true, v⟩, rfl, rfl⟩, ⟨⟨1, true, v⟩, rfl, rfl⟩, rfl, ?_, ?_, ?_⟩
  · intro i pc hpc
    have hpc' : (List.replicate n ReaderPC.idle)[i]? = some pc := hpc
    rw [List.getElem?_replicate] at hpc'
    have : pc = .idle := by
      split at hpc'
      · exact (Option.some_inj.mp hpc').symm
      · cases hpc'
    subst this
    trivial
  · show (0 : Nat) = List.countP (holdsSlot 0) (List.replicate n ReaderPC.idle)
    refine (List.countP_eq_zero.mpr ?_).symm
    intro a ha
    rw [List.eq_of_mem_replicate ha]
    simp [holdsSlot]
  · show (0 : Nat) = List.countP (holdsSlot 1) (List.replicate n ReaderPC.idle)
    refine (List.countP_eq_zero.mpr ?_).symm
    intro a ha
    rw [List.eq_of_mem_replicate ha]
    simp [holdsSlot]

/-- Every reachable state of the interleaved system satisfies the invariant. -/
theorem gInv_reach {v : T} {n : Nat} {g : GState T} (h : GReach (init v n) g) :
    GInv g := by
  induction h with
  | refl => exact gInv_init v n
  | step _ hs ih => exact gInv_step ih hs

theorem traceStep01 : Step traceG0 .wLockLoad traceG1 := Step.wLockLoad rfl

theorem traceStep12 : Step traceG1 .wLoadPtr traceG2 := Step.wLoadPtr rfl rfl

theorem traceStep23 : Step traceG2 .wClone traceG3 := Step.wClone 9 rfl

theorem traceStep34 : Step traceG3 .wSwap traceG4 := @Step.wSwap Int traceG3 0 1 2 rfl rfl

theorem traceStep45 : Step traceG4 .wObserveZero traceG5 := Step.wObserveZero rfl rfl rfl

theorem traceStep56 : Step traceG5 .wFlip traceG6 := @Step.wFlip Int traceG5 0 1 rfl

theorem traceStep67 : Step traceG6 (.rLoadLatest 0) traceG7 := Step.rLoadLatest rfl

theorem traceStep78 : Step traceG7 (.rIncr 0) traceG8 := @Step.rIncr Int traceG7 0 1 1 rfl rfl

theorem traceStep89 : Step traceG8 .wFree traceG9 := @Step.wFree Int traceG8 0 1 rfl

theorem reach_traceG4 : GReach (init (5 : Int) 1) traceG4 :=
  GReach.step (GReach.step (GReach.step (GReach.step GReach.refl
    traceStep01) traceStep12) traceStep23) traceStep34

theorem reach_traceG8 : GReach (init (5 : Int) 1) traceG8 :=
  GReach.step (GReach.step (GReach.step (GReach.step reach_traceG4
    traceStep45) traceStep56) traceStep67) traceStep78

/-- C5: the publish protocol order inside `edit`, read off the step
relation: a `wSwap` fires only after clone (from `cloned`, installing the
new pointer into the inactive slot and recording the replaced pointer); a
`wObserveZero` fires only from `swapped` and only having observed that
slot's hazard counter equal to zero; a `wFlip` fires only from `drained`;
the `wFree` fires only from `flipped` and frees exactly the pointer the
swap removed.  Consequently each edit performs swap → drain → flip → free
in this order.  Moreover, in every reachable state, while the writer is
draining (between swap and flip) the active indicator still names the
slot it loaded, which is *not* the slot being drained: no slot is both
active and draining. -/
theorem c5_publish_order_no_active_drain :
    (∀ g g' : GState T, Step g .wSwap g' →
      ∃ l os newp, g.writer = .cloned l newp ∧ otherSlot? l = some os ∧
        g'.cow = setPtr g.cow os newp ∧ g'.writer = .swapped l (ptrOf g.cow os)) ∧
    (∀ g g' : GState T, Step g .wObserveZero g' →
      ∃ l oldp os, g.writer = .swapped l oldp ∧ otherSlot? l = some os ∧
        cntOf g.cow os = 0 ∧ g'.writer = .drained l oldp) ∧
    (∀ g g' : GState T, Step g .wFlip g' →
      ∃ l oldp, g.writer = .drained l oldp ∧ g'.cow.latest = (l + 1) % 2 ∧
        g'.writer = .flipped l oldp) ∧
    (∀ g g' : GState T, Step g .wFree g' →
      ∃ l oldp, g.writer = .flipped l oldp ∧ g'.mem = freeBox g.mem oldp) ∧
    (∀ (v : T) (n : Nat) (g : GState T), GReach (init v n) g →
      ∀ l oldp, g.writer = .swapped l oldp ∨ g.writer = .drained l oldp →
        g.cow.latest = l ∧ otherSlot? l = some (1 - l) ∧ 1 - l ≠ l) := by
  refine ⟨?_, ?_, ?_, ?_, ?_⟩
  · intro g g' h
    cases h with
    | wSwap hw hos => exact ⟨_, _, _, hw, hos, rfl, rfl⟩
  · intro g g' h
    cases h with
    | wObserveZero hw hos hcnt => exact ⟨_, _, _, hw, hos, hcnt, rfl⟩
  · intro g g' h
    cases h with
    | wFlip hw => exact ⟨_, _, hw, rfl, rfl⟩
  · intro g g' h
    cases h with
    | wFree hw => exact ⟨_, _, hw, rfl⟩
  · intro v n g hre l oldp hw
    have inv := gInv_reach hre
    have wok := inv.writer_ok
    unfold WriterInv at wok
    have hlt : g.cow.latest = l := by
      rcases hw with hw | hw <;> rw [hw] at wok <;> exact wok.1.symm
    have hl2 : l < 2 := hlt ▸ inv.latest_lt
    refine ⟨hlt, ?_, ?_⟩ <;> rcases (show l = 0 ∨ l = 1 by omega) with h | h <;> subst h
    · rfl
    · rfl
    · omega
    · omega

/-- C5 witness: the no-active-drain property at a concrete reachable state
in which the writer is mid-drain. -/
theorem c5_publish_order_no_active_drain_witness :
    GReach (init (5 : Int) 1) traceG4 ∧ traceG4.writer = .swapped 0 1 ∧
    (traceG4.cow.latest = 0 ∧ otherSlot? 0 = some (1 - 0) ∧ 1 - 0 ≠ 0) :=
  ⟨reach_traceG4, rfl,
    c5_publish_order_no_active_drain.2.2.2.2 5 1 traceG4 reach_traceG4 0 1 (Or.inl rfl)⟩

/-- C3, as stated, is false: it is *not* the case that at every `wFree`
instant the drained slot's hazard counter is zero.  After the flip a
reader may load the new `latest`, announce itself on the same slot
(raising the counter) and only then the writer reclaims the swapped-out
box: at that instant the counter is 1.  The trace `traceG0 … traceG8`
realizes this with one reader. -/
theorem c3_counterexample_free_with_nonzero_counter :
    ¬ (∀ (T : Type) (v : T) (n : Nat) (g g' : GState T) (l oldp os : Nat),
        GReach (init v n) g → g.writer = .flipped l oldp → otherSlot? l = some os →
        Step g .wFree g' → cntOf g.cow os = 0) := by
  intro hcl
  have hc := hcl Int 5 1 traceG8 traceG9 0 1 1 reach_traceG8 rfl rfl traceStep89
  exact absurd hc (by decide)

/-- C3 (amended): `edit` releases the pointer it removed from the inactive
slot only after an observation of that slot's hazard counter equal to zero
(the drain exit condition), and the release happens only from the
post-flip program point, freeing exactly the recorded pointer.  At the
instant of the free the counter may be non-zero again, but every reader
that has loaded a slot pointer then holds a pointer different from the
freed one — and more generally, in every reachable state a reader that is
between its pointer load and its clone holds a live (unreclaimed) box.  So
the freed box is never one a reader still uses. -/
theorem c3_release_only_after_observed_zero :
    (∀ (g g' : GState T) (l oldp os : Nat), Step g .wObserveZero g' →
        g.writer = .swapped l oldp → otherSlot? l = some os → cntOf g.cow os = 0) ∧
    (∀ g g' : GState T, Step g .wFree g' →
        ∃ l oldp, g.writer = .flipped l oldp ∧ g'.mem = freeBox g.mem oldp) ∧
    (∀ (v : T) (n : Nat) (g g' : GState T), GReach (init v n) g → Step g .wFree g' →
        ∀ l oldp, g.writer = .flipped l oldp →
          oldp ≠ g.cow.redPtr ∧ oldp ≠ g.cow.greenPtr ∧
          (∀ (i s : Nat) (p : Ptr), g.readers[i]? = some (.gotPtr s p) → p ≠ oldp)) ∧
    (∀ (v : T) (n : Nat) (g : GState T), GReach (init v n) g →
        ∀ (i s : Nat) (p : Ptr), g.readers[i]? = some (.gotPtr s p) →
          aliveAt g.mem p) := by
  refine ⟨?_, ?_, ?_, ?_⟩
  · intro g g' l oldp os h hw hos
    cases h with
    | wObserveZero hw' hos' hcnt =>
      rw [hw] at hw'
      injection hw' with hl' hp'
      subst hl'
      rw [hos] at hos'
      rw [Option.some_inj.mp hos']
      exact hcnt
  · intro g g' h
    cases h with
    | wFree hw => exact ⟨_, _, hw, rfl⟩
  · intro v n g g' hre _ l oldp hw
    have inv := gInv_reach hre
    have wok := inv.writer_ok
    unfold WriterInv at wok
    rw [hw] at wok
    obtain ⟨h1, hl2, h3, h4, h5, h6, h7⟩ := wok
    refine ⟨h5, h6, ?_⟩
    intro i s p hpc
    obtain ⟨hs2, hplt, hal, hd⟩ := inv.readers_ok i _ hpc
    rcases hd with hp | ⟨l', hww, _⟩
    · intro hpold
      rcases (show s = 0 ∨ s = 1 by omega) with h | h <;> subst h
      · exact h5 (hpold ▸ hp.symm ▸ rfl)
      · exact h6 (hpold ▸ hp.symm ▸ rfl)
    · rw [hw] at hww; cases hww
  · intro v n g hre i s p hpc
    have inv := gInv_reach hre
    obtain ⟨hs2, hplt, hal, hd⟩ := inv.readers_ok i _ hpc
    exact hal

/-- C3 (amended) witness: the drain-exit observation at the concrete trace
(the observation step from `traceG4`), where the green counter is 0. -/
theorem c3_release_only_after_observed_zero_witness :
    traceG4.writer = .swapped 0 1 ∧ otherSlot? 0 = some 1 ∧
    cntOf traceG4.cow 1 = 0 :=
  ⟨rfl, rfl,
    c3_release_only_after_observed_zero.1 traceG4 traceG5 0 1 1 traceStep45 rfl rfl⟩
